import Mathlib

/-!
Verification of the session-control core (`src/control/mod.rs`).

The core's state (`Control`) and its handlers are embedded shallowly:
`HashMap`s become association lists queried through `mlookup`, opaque
`Torrent` method calls become elements of an `Output` trace, and the
u32/u64 machine arithmetic of the source is carried out on `Nat` with
explicit `% 2 ^ 32` / `% 2 ^ 64` where the source casts or adds.
-/

/-- Association-list map; `mlookup m k` mirrors `HashMap::get`. -/
def mlookup {α β : Type} [DecidableEq α] : List (α × β) → α → Option β
  | [], _ => none
  | (k, v) :: rest, k' => if k = k' then some v else mlookup rest k'

/-- Key removal, mirroring `HashMap::remove` (value returned via `mlookup`). -/
def mremove {α β : Type} [DecidableEq α] : List (α × β) → α → List (α × β)
  | [], _ => []
  | (k', v) :: rest, k => if k' = k then mremove rest k else (k', v) :: mremove rest k

/-- Insertion, mirroring `HashMap::insert` (replaces an existing binding). -/
def minsert {α β : Type} [DecidableEq α] (m : List (α × β)) (k : α) (v : β) : List (α × β) :=
  (k, v) :: mremove m k

/-- A 20-byte content hash (`[u8; 20]`). -/
abbrev Hash := List Nat

/-- A torrent as seen by the core: opaque except for its metainfo hash
(`t.info().hash` is the only torrent attribute the core state reads). -/
structure Torrent where
  hash : Hash
deriving DecidableEq

/-- `torrent::Info`, reduced to the one field the core reads. -/
structure Info where
  hash : Hash
deriving DecidableEq

/-- `ServerData` (mod.rs:45); `session_ul`/`session_dl` carry `#[serde(skip)]`. -/
structure ServerData where
  id : String
  ul : Nat
  dl : Nat
  session_ul : Nat
  session_dl : Nat
deriving DecidableEq

/-- Modelled from the spec: the `Throttler` (its source is outside this
tree) is reduced to its two reconfigurable byte-per-second caps, read by
`ul_rate()`/`dl_rate()` and written by `set_ul_rate`/`set_dl_rate`. -/
structure Throttler where
  ul_rate : Nat
  dl_rate : Nat
deriving DecidableEq

/-- The `rpc::resource::SResourceUpdate` variants the core emits. -/
inductive SResourceUpdate where
  | Throttle (id : String) (throttle_up throttle_down : Nat)
  | ServerTransfer (id : String) (rate_up rate_down transferred_up transferred_down
      ses_transferred_up ses_transferred_down : Nat)
deriving DecidableEq

/-- Outbound effects of one event: RPC messages sent through `cio.msg_rpc`,
plus markers for each call into an opaque `Torrent` or into `cio`. -/
inductive Output where
  | msg_rpc (updates : List SResourceUpdate)
  | set_tracker_response (tid : Nat)
  | handle_disk_resp (tid : Nat)
  | update_rpc_peers (tid : Nat)
  | peer_ev (tid pid : Nat)
  | rpc_update (tid : Nat)
  | rpc_update_file (tid : Nat)
  | torrent_delete (tid : Nat)
  | pause (tid : Nat)
  | resume (tid : Nat)
  | validate (tid : Nat)
  | remove_peer (tid : Nat)
  | remove_tracker (tid : Nat)
  | flush_dl
  | flush_ul
  | jobs_update
deriving DecidableEq

namespace rpc

/-- `rpc::Message` (the command set handled in mod.rs:319). -/
inductive Message where
  | UpdateTorrent (id : String)
  | Torrent (info : Info) (path : Option String) (start : Bool)
  | UpdateFile (id : String) (torrent_id : String) (priority : Nat)
  | UpdateServer (id : String) (throttle_up throttle_down : Option Nat)
  | RemoveTorrent (id : String)
  | Pause (id : String)
  | Resume (id : String)
  | Validate (ids : List String)
  | RemovePeer (id : String) (torrent_id : String)
  | RemoveTracker (id : String) (torrent_id : String)
deriving DecidableEq

end rpc

/-- The core state owned by `Control` (mod.rs:31). -/
structure Control where
  throttler : Throttler
  tid_cnt : Nat
  tx_rates : Option (Nat × Nat)
  last_tx_rates : Nat × Nat
  torrents : List (Nat × Torrent)
  peers : List (Nat × Nat)
  hash_idx : List (Hash × Nat)
  data : ServerData
deriving DecidableEq

/-- `Control::new` (mod.rs:57): empty tables, zeroed counters, default data. -/
def Control.new (throttler : Throttler) : Control :=
  { throttler := throttler, tid_cnt := 0, tx_rates := none, last_tx_rates := (0, 0),
    torrents := [], peers := [], hash_idx := [], data := ⟨"", 0, 0, 0, 0⟩ }

/-- Little-endian u64, as written by the binary encoding of `syn_data`. -/
def u64le (n : Nat) : List Nat :=
  [n % 256, n / 256 % 256, n / 256 ^ 2 % 256, n / 256 ^ 3 % 256,
   n / 256 ^ 4 % 256, n / 256 ^ 5 % 256, n / 256 ^ 6 % 256, n / 256 ^ 7 % 256]

/-- Read back a little-endian u64; fails on a truncated stream. -/
def readU64 : List Nat → Option (Nat × List Nat)
  | b0 :: b1 :: b2 :: b3 :: b4 :: b5 :: b6 :: b7 :: rest =>
    some (b0 + 256 * b1 + 256 ^ 2 * b2 + 256 ^ 3 * b3 + 256 ^ 4 * b4 +
      256 ^ 5 * b5 + 256 ^ 6 * b6 + 256 ^ 7 * b7, rest)
  | _ => none

/-- Modelled from the spec: the stable binary (bincode) encoding of
`ServerData` written to `syn_data` — a length-prefixed string followed by
the two u64 counters; the session counters are skipped. -/
def ServerData.serialize (d : ServerData) : List Nat :=
  u64le d.id.length ++ d.id.data.map Char.toNat ++ u64le d.ul ++ u64le d.dl

/-- Modelled from the spec: decoding of `syn_data`; skipped fields come
back as their defaults (zero). -/
def ServerData.deserialize (bs : List Nat) : Option ServerData :=
  match readU64 bs with
  | none => none
  | some (len, r1) =>
    if len ≤ r1.length then
      match readU64 (r1.drop len) with
      | none => none
      | some (ul, r2) =>
        match readU64 r2 with
        | none => none
        | some (dl, _) =>
          some ⟨String.mk ((r1.take len).map Char.ofNat), ul, dl, 0, 0⟩
    else none

/-- Modelled from the spec: `ServerData::new` concatenates a version tag
with freshly generated random characters (`random_string` lives outside
this tree); the randomness is passed in as `rid`. -/
def ServerData.new (rid : String) : ServerData :=
  ⟨"0.1.0-" ++ rid, 0, 0, 0, 0⟩

/-- Value of a single hex digit. -/
def hexVal (c : Char) : Option Nat :=
  if '0' ≤ c ∧ c ≤ '9' then some (c.toNat - '0'.toNat)
  else if 'a' ≤ c ∧ c ≤ 'f' then some (c.toNat - 'a'.toNat + 10)
  else if 'A' ≤ c ∧ c ≤ 'F' then some (c.toNat - 'A'.toNat + 10)
  else none

/-- Hex digit pairs to bytes; fails on a non-hex digit or odd length. -/
def hexBytes : List Char → Option (List Nat)
  | [] => some []
  | [_] => none
  | c1 :: c2 :: rest =>
    match hexVal c1, hexVal c2, hexBytes rest with
    | some hi, some lo, some bs => some ((16 * hi + lo) :: bs)
    | _, _, _ => none

/-- Modelled from the spec: `util::id_to_hash` (outside this tree) decodes
a 40-character hex id into the 20 raw bytes of a `ContentHash`, yielding
`None` on any other input. -/
def id_to_hash (s : String) : Option Hash :=
  if s.length = 40 then hexBytes s.data else none

deriving instance DecidableEq for Except

/-- One `io::Result<fs::DirEntry>` of the session directory, reduced to
the file name and the result of reading the file in full. -/
structure DirEntry where
  name : String
  content : Except Unit (List Nat)
deriving DecidableEq

/-- `add_torrent` (mod.rs:305). -/
def add_torrent (c : Control) (info : Info) (path : Option String) (start : Bool) : Control :=
  if (mlookup c.hash_idx info.hash).isSome then c
  else
    let tid := c.tid_cnt
    let t : Torrent := ⟨info.hash⟩
    { c with hash_idx := minsert c.hash_idx t.hash tid,
             tid_cnt := c.tid_cnt + 1,
             torrents := minsert c.torrents tid t }

/-- `deserialize_torrent` (mod.rs:155). `des` stands for the opaque
`Torrent::deserialize`, whose source is outside this tree; unused binders
`path`/`start` of `add_torrent` have no analogue here. -/
def deserialize_torrent (des : List Nat → Option Torrent) (c : Control)
    (entry : Except Unit DirEntry) : Except Unit Unit × Control :=
  match entry with
  | .error _ => (.error (), c)
  | .ok dir =>
    if dir.name.length ≠ 40 then (.ok (), c)
    else
      match dir.content with
      | .error _ => (.error (), c)
      | .ok data =>
        let tid := c.tid_cnt
        match des data with
        | some t =>
          (.ok (), { c with hash_idx := minsert c.hash_idx t.hash tid,
                            tid_cnt := c.tid_cnt + 1,
                            torrents := minsert c.torrents tid t })
        | none => (.error (), c)

/-- The `for entry in fs::read_dir(sd)?` loop of `deserialize`
(mod.rs:147): a per-entry failure is logged and the fold continues. -/
def deserialize_torrents (des : List Nat → Option Torrent) :
    Control → List (Except Unit DirEntry) → Control
  | c, [] => c
  | c, e :: rest => deserialize_torrents des (deserialize_torrent des c e).2 rest

/-- `deserialize` (mod.rs:131): load `syn_data`, regenerating fresh
server data on any failure, then fold over the directory entries. -/
def deserialize (des : List Nat → Option Torrent) (rid : String) (c : Control)
    (sdata : Except Unit (List Nat)) (entries : List (Except Unit DirEntry)) : Control :=
  let c1 :=
    match sdata with
    | .ok bs =>
      match ServerData.deserialize bs with
      | some d => { c with data := d }
      | none => { c with data := ServerData.new rid }
    | .error _ => { c with data := ServerData.new rid }
  deserialize_torrents des c1 entries

/-- `handle_rpc_ev` (mod.rs:319). The terminal flag it returns is always
false; `handle_event` adds it back. -/
def handle_rpc_ev (c : Control) (req : rpc.Message) : Control × List Output :=
  match req with
  | .UpdateTorrent id =>
    match id_to_hash id with
    | none => (c, [])
    | some d =>
      match mlookup c.hash_idx d with
      | none => (c, [])
      | some i =>
        match mlookup c.torrents i with
        | none => (c, [])
        | some _ => (c, [Output.rpc_update i])
  | .Torrent info path start => (add_torrent c info path start, [])
  | .UpdateFile _ torrent_id _ =>
    match id_to_hash torrent_id with
    | none => (c, [])
    | some d =>
      match mlookup c.hash_idx d with
      | none => (c, [])
      | some i =>
        match mlookup c.torrents i with
        | none => (c, [])
        | some _ => (c, [Output.rpc_update_file i])
  | .UpdateServer id throttle_up throttle_down =>
    let tu := throttle_up.getD (c.throttler.ul_rate % 2 ^ 32)
    let td := throttle_down.getD (c.throttler.dl_rate % 2 ^ 32)
    ({ c with throttler := ⟨tu, td⟩ },
     [Output.msg_rpc [SResourceUpdate.Throttle id tu td]])
  | .RemoveTorrent id =>
    match id_to_hash id with
    | none => (c, [])
    | some d =>
      match mlookup c.hash_idx d with
      | none => (c, [])
      | some i =>
        match mlookup c.torrents i with
        | none => ({ c with hash_idx := mremove c.hash_idx d }, [])
        | some _ =>
          ({ c with hash_idx := mremove c.hash_idx d, torrents := mremove c.torrents i },
           [Output.torrent_delete i])
  | .Pause id =>
    match id_to_hash id with
    | none => (c, [])
    | some d =>
      match mlookup c.hash_idx d with
      | none => (c, [])
      | some i =>
        match mlookup c.torrents i with
        | none => (c, [])
        | some _ => (c, [Output.pause i])
  | .Resume id =>
    match id_to_hash id with
    | none => (c, [])
    | some d =>
      match mlookup c.hash_idx d with
      | none => (c, [])
      | some i =>
        match mlookup c.torrents i with
        | none => (c, [])
        | some _ => (c, [Output.resume i])
  | .Validate ids =>
    (c, ids.filterMap (fun id =>
      match id_to_hash id with
      | none => none
      | some d =>
        match mlookup c.hash_idx d with
        | none => none
        | some i =>
          match mlookup c.torrents i with
          | none => none
          | some _ => some (Output.validate i)))
  | .RemovePeer _ torrent_id =>
    match id_to_hash torrent_id with
    | none => (c, [])
    | some d =>
      match mlookup c.hash_idx d with
      | none => (c, [])
      | some i =>
        match mlookup c.torrents i with
        | none => (c, [])
        | some _ => (c, [Output.remove_peer i])
  | .RemoveTracker _ torrent_id =>
    match id_to_hash torrent_id with
    | none => (c, [])
    | some d =>
      match mlookup c.hash_idx d with
      | none => (c, [])
      | some i =>
        match mlookup c.torrents i with
        | none => (c, [])
        | some _ => (c, [Output.remove_tracker i])

/-- One inbound peer reported by the listener (`listener::Message`);
`accepted` records the `Option<pid>` answer of the opaque
`torrent.add_inc_peer(peer, cid, rsv)` call. -/
structure LstMessage where
  hash : Hash
  cid : List Nat
  rsv : List Nat
  accepted : Option Nat
deriving DecidableEq

/-- The event union polled from CIO (`cio::Event`). Opaque torrent
answers ride on the event: a `Tracker` Ok response carries, per announced
peer, `some pid` when both the outgoing connect and `torrent.add_peer`
succeeded; `Peer` carries whether `torrent.peer_ev` reported failure; the
three registered timer ids become three constructors, and `TimerThrottler`
carries the `throttler.update()` result. -/
inductive Event where
  | Tracker (r : Except Unit (Nat × Except Unit (List (Option Nat))))
  | Disk (r : Except Unit Nat)
  | RPC (r : Except Unit rpc.Message)
  | Listener (r : Except Unit LstMessage)
  | TimerThrottler (upd : Option ((Nat × Nat) × (Nat × Nat)))
  | TimerFlush
  | TimerJob
  | TimerUnknown
  | Peer (pid : Nat) (fails : Bool)
deriving DecidableEq

/-- `handle_trk_ev` (mod.rs:237). -/
def handle_trk_ev (c : Control) (tid : Nat) (resp : Except Unit (List (Option Nat))) :
    Control × List Output :=
  match mlookup c.torrents tid with
  | none => (c, [])
  | some _ =>
    match resp with
    | .error _ => (c, [Output.set_tracker_response tid])
    | .ok conns =>
      ({ c with peers := conns.foldl (fun p conn =>
          match conn with
          | some pid => minsert p pid tid
          | none => p) c.peers },
       [Output.set_tracker_response tid, Output.update_rpc_peers tid])

/-- `handle_disk_ev` (mod.rs:268). -/
def handle_disk_ev (c : Control) (tid : Nat) : Control × List Output :=
  match mlookup c.torrents tid with
  | none => (c, [])
  | some _ => (c, [Output.handle_disk_resp tid])

/-- `handle_lst_ev` (mod.rs:275) followed by `add_inc_peer` (mod.rs:428). -/
def handle_lst_ev (c : Control) (msg : LstMessage) : Control × List Output :=
  match mlookup c.hash_idx msg.hash with
  | none => (c, [])
  | some tid =>
    match mlookup c.torrents tid with
    | none => (c, [])
    | some _ =>
      match msg.accepted with
      | some pid => ({ c with peers := minsert c.peers pid tid }, [])
      | none => (c, [])

/-- `handle_peer_ev` (mod.rs:287). -/
def handle_peer_ev (c : Control) (pid : Nat) (fails : Bool) : Control × List Output :=
  match mlookup c.peers pid with
  | none => (c, [])
  | some tid =>
    match mlookup c.torrents tid with
    | none => (c, [])
    | some _ =>
      if fails then
        ({ c with peers := mremove c.peers pid },
         [Output.peer_ev tid pid, Output.update_rpc_peers tid])
      else (c, [Output.peer_ev tid pid])

/-- `update_rpc_tx` (mod.rs:437). -/
def update_rpc_tx (c : Control) : Control × List Output :=
  match c.tx_rates with
  | none => (c, [])
  | some (rate_up, rate_down) =>
    let c1 := { c with tx_rates := none }
    if rate_up = c.last_tx_rates.1 ∧ rate_down = c.last_tx_rates.2 then (c1, [])
    else
      ({ c1 with last_tx_rates := (rate_up, rate_down) },
       [Output.msg_rpc [SResourceUpdate.ServerTransfer c.data.id rate_up rate_down
          c.data.ul c.data.dl c.data.session_ul c.data.session_dl]])

/-- `handle_event` (mod.rs:181): new state, emitted effects, and the
terminal flag. The u64 counter additions of the throttler-refresh arm
wrap at `2 ^ 64` as the source's `u64 +=` does. -/
def handle_event (c : Control) (event : Event) : Control × List Output × Bool :=
  match event with
  | .Tracker (.ok (tid, resp)) => let r := handle_trk_ev c tid resp; (r.1, r.2, false)
  | .Tracker (.error _) => (c, [], false)
  | .Disk (.ok tid) => let r := handle_disk_ev c tid; (r.1, r.2, false)
  | .Disk (.error _) => (c, [], false)
  | .RPC (.ok m) => let r := handle_rpc_ev c m; (r.1, r.2, false)
  | .RPC (.error _) => (c, [], true)
  | .Listener (.ok msg) => let r := handle_lst_ev c msg; (r.1, r.2, false)
  | .Listener (.error _) => (c, [], false)
  | .TimerThrottler upd =>
    match upd with
    | some ((ulr, ul), (dlr, dl)) =>
      ({ c with tx_rates := some (ulr, dlr),
                data := { c.data with
                  ul := (c.data.ul + ul) % 2 ^ 64,
                  dl := (c.data.dl + dl) % 2 ^ 64,
                  session_ul := (c.data.session_ul + ul) % 2 ^ 64,
                  session_dl := (c.data.session_dl + dl) % 2 ^ 64 } }, [], false)
    | none => (c, [], false)
  | .TimerFlush => (c, [Output.flush_dl, Output.flush_ul], false)
  | .TimerJob => let r := update_rpc_tx c; (r.1, Output.jobs_update :: r.2, false)
  | .TimerUnknown => (c, [], false)
  | .Peer pid fails => let r := handle_peer_ev c pid fails; (r.1, r.2, false)

/-- No two torrents of the primary table carry the same content hash. -/
def torrents_hash_unique (c : Control) : Prop :=
  ∀ tid1 tid2 t1 t2, mlookup c.torrents tid1 = some t1 →
    mlookup c.torrents tid2 = some t2 → t1.hash = t2.hash → tid1 = tid2

/-- Every secondary-index key resolves to a torrent carrying that hash. -/
def hash_idx_resolves (c : Control) : Prop :=
  ∀ h tid, mlookup c.hash_idx h = some tid →
    ∃ t, mlookup c.torrents tid = some t ∧ t.hash = h

/-- All torrent ids stored in the secondary index were already issued. -/
def idx_bound (c : Control) : Prop :=
  ∀ h tid, mlookup c.hash_idx h = some tid → tid < c.tid_cnt

/-- All torrent ids of the primary table were already issued. -/
def torrents_bound (c : Control) : Prop :=
  ∀ tid t, mlookup c.torrents tid = some t → tid < c.tid_cnt

/-- Every torrent of the primary table is indexed under its own hash. -/
def torrents_in_idx (c : Control) : Prop :=
  ∀ tid t, mlookup c.torrents tid = some t → mlookup c.hash_idx t.hash = some tid

/-- The part of the table invariant preserved by every reachable state. -/
def wf (c : Control) : Prop :=
  hash_idx_resolves c ∧ idx_bound c ∧ torrents_bound c

/-- The full table invariant. -/
def inv (c : Control) : Prop := wf c ∧ torrents_in_idx c

/-- The common insertion performed by `add_torrent` and
`deserialize_torrent`: index the hash under the next id, advance the
counter, store the torrent. -/
def insertT (c : Control) (h : Hash) : Control :=
  { c with hash_idx := minsert c.hash_idx h c.tid_cnt,
           tid_cnt := c.tid_cnt + 1,
           torrents := minsert c.torrents c.tid_cnt ⟨h⟩ }

/-- The three-stage resolution (`hex decode`, index lookup, table lookup)
of a hash-keyed RPC id misses at some stage. -/
def missAt (c : Control) (id : String) : Bool :=
  match id_to_hash id with
  | none => true
  | some d =>
    match mlookup c.hash_idx d with
    | none => true
    | some i => (mlookup c.torrents i).isNone

/-- A hash-keyed RPC command all of whose resolutions miss. -/
def cmdMisses (c : Control) : rpc.Message → Bool
  | .UpdateTorrent id => missAt c id
  | .UpdateFile _ torrent_id _ => missAt c torrent_id
  | .RemoveTorrent id => missAt c id
  | .Pause id => missAt c id
  | .Resume id => missAt c id
  | .Validate ids => ids.all (missAt c)
  | .RemovePeer _ torrent_id => missAt c torrent_id
  | .RemoveTracker _ torrent_id => missAt c torrent_id
  | _ => false

/-- The hash a directory entry contributes during recovery, when its
whole pipeline (entry ok, 40-character name, readable, deserializable)
succeeds. -/
def entryHash (des : List Nat → Option Torrent) (e : Except Unit DirEntry) : Option Hash :=
  match e with
  | .error _ => none
  | .ok dir =>
    if dir.name.length ≠ 40 then none
    else
      match dir.content with
      | .error _ => none
      | .ok data => (des data).map Torrent.hash

/-- The hashes successfully recovered from a session directory, in order. -/
def startupHashes (des : List Nat → Option Torrent)
    (entries : List (Except Unit DirEntry)) : List Hash :=
  entries.filterMap (entryHash des)

/-- Reachability by a sequence of polled events. -/
inductive Steps : Control → Control → Prop
  | refl (c : Control) : Steps c c
  | tail (c c' : Control) (e : Event) : Steps c c' → Steps c (handle_event c' e).1

/-- No u64 counter addition of a throttler-refresh tick overflows. -/
def TickBound (c : Control) : Event → Prop
  | .TimerThrottler (some ((_, u), (_, d))) =>
    c.data.ul + u < 2 ^ 64 ∧ c.data.dl + d < 2 ^ 64 ∧
    c.data.session_ul + u < 2 ^ 64 ∧ c.data.session_dl + d < 2 ^ 64
  | _ => True

/-- Reachability by events none of whose counter additions overflow. -/
inductive StepsNW : Control → Control → Prop
  | refl (c : Control) : StepsNW c c
  | tail (c c' : Control) (e : Event) : StepsNW c c' → TickBound c' e →
      StepsNW c (handle_event c' e).1

/-- A concrete torrent deserializer for witnesses: any 20-byte blob is
its own hash. -/
def des0 : List Nat → Option Torrent :=
  fun bs => if bs.length = 20 then some ⟨bs⟩ else none

/-- A concrete throttler configuration for witnesses. -/
def thr0 : Throttler := ⟨100, 200⟩

/-- A concrete content hash for witnesses. -/
def hash0 : Hash := List.replicate 20 7

/-- A 40-character session file name. -/
def name40a : String := "aaaaaaaaaaaaaaaaaaaaaaaaaaaaaaaaaaaaaaaa"

/-- A second, distinct 40-character session file name. -/
def name40b : String := "bbbbbbbbbbbbbbbbbbbbbbbbbbbbbbbbbbbbbbbb"

/-- The 40-hex id of the all-zero content hash. -/
def zeros40 : String := "0000000000000000000000000000000000000000"

/-- A startup whose session directory holds two distinct file names with
identical resume contents, so both deserialize to the same hash. -/
def c1bad : Control :=
  deserialize des0 "r" (Control.new thr0) (.error ())
    [.ok ⟨name40a, .ok hash0⟩, .ok ⟨name40b, .ok hash0⟩]

/-- A startup whose `syn_data` records `ul` at the top of the u64 range. -/
def c6start : Control :=
  deserialize des0 "r" (Control.new thr0)
    (.ok (u64le 0 ++ u64le (2 ^ 64 - 1) ++ u64le 0)) []

/-- One throttler-refresh tick after `c6start` that uploads a single
byte, wrapping the persisted counter. -/
def c6bad : Control :=
  (handle_event c6start (.TimerThrottler (some ((0, 1), (0, 0))))).1

theorem mlookup_mremove {α β : Type} [DecidableEq α] (m : List (α × β)) (k k' : α) :
    mlookup (mremove m k) k' = if k' = k then none else mlookup m k' := by
  induction m with
  | nil => simp only [mremove, mlookup]; split <;> rfl
  | cons p rest ih =>
    obtain ⟨a, b⟩ := p
    simp only [mremove, mlookup]
    by_cases hak : a = k
    · subst hak
      rw [if_pos rfl, ih]
      by_cases hk : k' = a
      · simp [hk]
      · simp [hk, Ne.symm hk]
    · rw [if_neg hak]
      simp only [mlookup]
      by_cases hak' : a = k'
      · subst hak'; simp [hak]
      · simp [hak', ih]

theorem mlookup_minsert {α β : Type} [DecidableEq α] (m : List (α × β)) (k k' : α) (v : β) :
    mlookup (minsert m k v) k' = if k = k' then some v else mlookup m k' := by
  simp only [minsert, mlookup, mlookup_mremove]
  by_cases h : k = k'
  · simp [h]
  · simp [h, Ne.symm h]

theorem mlookup_new_nil {α β : Type} [DecidableEq α] (k : α) :
    mlookup ([] : List (α × β)) k = none := rfl

theorem add_torrent_eq_insertT (c : Control) (info : Info) (path : Option String) (start : Bool) :
    add_torrent c info path start =
      if (mlookup c.hash_idx info.hash).isSome then c else insertT c info.hash := rfl

theorem wf_insertT (c : Control) (h : Hash) (hw : wf c) : wf (insertT c h) := by
  obtain ⟨hA, hB, hC⟩ := hw
  refine ⟨?_, ?_, ?_⟩
  · intro h' tid hx
    simp only [insertT, mlookup_minsert] at hx ⊢
    by_cases hh : h = h'
    · rw [if_pos hh] at hx
      cases hx
      exact ⟨⟨h⟩, by rw [if_pos rfl], hh⟩
    · rw [if_neg hh] at hx
      obtain ⟨t, ht, hth⟩ := hA h' tid hx
      refine ⟨t, ?_, hth⟩
      rw [if_neg ?_]
      · exact ht
      · intro hq
        exact absurd (hC tid t ht) (by rw [← hq]; exact lt_irrefl _)
  · intro h' tid hx
    simp only [insertT, mlookup_minsert] at hx ⊢
    by_cases hh : h = h'
    · rw [if_pos hh] at hx; cases hx; exact Nat.lt_succ_self _
    · rw [if_neg hh] at hx; exact Nat.lt_succ_of_lt (hB h' tid hx)
  · intro tid t hx
    simp only [insertT, mlookup_minsert] at hx ⊢
    by_cases hh : c.tid_cnt = tid
    · rw [← hh]; exact Nat.lt_succ_self _
    · rw [if_neg hh] at hx; exact Nat.lt_succ_of_lt (hC tid t hx)

theorem inv_insertT (c : Control) (h : Hash) (hv : inv c)
    (hfresh : mlookup c.hash_idx h = none) : inv (insertT c h) := by
  obtain ⟨hw, hD⟩ := hv
  refine ⟨wf_insertT c h hw, ?_⟩
  intro tid t hx
  simp only [insertT, mlookup_minsert] at hx ⊢
  by_cases hh : c.tid_cnt = tid
  · rw [if_pos hh] at hx
    cases hx
    rw [if_pos rfl, hh]
  · rw [if_neg hh] at hx
    have hidx := hD tid t hx
    rw [if_neg ?_]
    · exact hidx
    · intro hq
      rw [hq] at hfresh
      rw [hfresh] at hidx
      cases hidx

theorem wf_remove_idx (c : Control) (d : Hash) (hw : wf c) :
    wf { c with hash_idx := mremove c.hash_idx d } := by
  obtain ⟨hA, hB, hC⟩ := hw
  refine ⟨fun h' tid hx => ?_, fun h' tid hx => ?_, hC⟩
  · dsimp only at hx ⊢
    rw [mlookup_mremove] at hx
    by_cases hh : h' = d
    · rw [if_pos hh] at hx; cases hx
    · rw [if_neg hh] at hx; exact hA h' tid hx
  · dsimp only at hx ⊢
    rw [mlookup_mremove] at hx
    by_cases hh : h' = d
    · rw [if_pos hh] at hx; cases hx
    · rw [if_neg hh] at hx; exact hB h' tid hx

theorem wf_remove_both (c : Control) (d : Hash) (i : Nat) (hw : wf c)
    (hi : mlookup c.hash_idx d = some i) :
    wf { c with hash_idx := mremove c.hash_idx d, torrents := mremove c.torrents i } := by
  obtain ⟨hA, hB, hC⟩ := hw
  refine ⟨fun h' tid hx => ?_, fun h' tid hx => ?_, fun tid t hx => ?_⟩
  · dsimp only at hx ⊢
    rw [mlookup_mremove] at hx
    by_cases hh : h' = d
    · rw [if_pos hh] at hx; cases hx
    · rw [if_neg hh] at hx
      obtain ⟨t, ht, hth⟩ := hA h' tid hx
      refine ⟨t, ?_, hth⟩
      rw [mlookup_mremove, if_neg ?_]
      · exact ht
      · intro htid
        obtain ⟨t2, ht2, hth2⟩ := hA d i hi
        rw [htid] at ht
        rw [ht] at ht2
        cases ht2
        exact hh (hth ▸ hth2)
  · dsimp only at hx ⊢
    rw [mlookup_mremove] at hx
    by_cases hh : h' = d
    · rw [if_pos hh] at hx; cases hx
    · rw [if_neg hh] at hx; exact hB h' tid hx
  · dsimp only at hx ⊢
    rw [mlookup_mremove] at hx
    by_cases hh : tid = i
    · rw [if_pos hh] at hx; cases hx
    · rw [if_neg hh] at hx; exact hC tid t hx

theorem wf_handle_rpc_ev (c : Control) (m : rpc.Message) (hw : wf c) :
    wf (handle_rpc_ev c m).1 := by
  cases m with
  | UpdateTorrent id =>
    simp only [handle_rpc_ev]
    repeat' split
    all_goals exact hw
  | Torrent info path start =>
    rw [show (handle_rpc_ev c (.Torrent info path start)).1 =
        add_torrent c info path start from rfl, add_torrent_eq_insertT]
    split
    · exact hw
    · exact wf_insertT _ _ hw
  | UpdateFile id torrent_id priority =>
    simp only [handle_rpc_ev]
    repeat' split
    all_goals exact hw
  | UpdateServer id tu td => exact hw
  | RemoveTorrent id =>
    simp only [handle_rpc_ev]
    cases hd : id_to_hash id with
    | none => exact hw
    | some d =>
      dsimp only
      cases hi : mlookup c.hash_idx d with
      | none => exact hw
      | some i =>
        dsimp only
        cases ht : mlookup c.torrents i with
        | none => exact wf_remove_idx c d hw
        | some t => exact wf_remove_both c d i hw hi
  | Pause id =>
    simp only [handle_rpc_ev]
    repeat' split
    all_goals exact hw
  | Resume id =>
    simp only [handle_rpc_ev]
    repeat' split
    all_goals exact hw
  | Validate ids => exact hw
  | RemovePeer id torrent_id =>
    simp only [handle_rpc_ev]
    repeat' split
    all_goals exact hw
  | RemoveTracker id torrent_id =>
    simp only [handle_rpc_ev]
    repeat' split
    all_goals exact hw

theorem inv_remove_idx (c : Control) (d : Hash) (i : Nat) (hv : inv c)
    (hi : mlookup c.hash_idx d = some i) (ht : mlookup c.torrents i = none) :
    inv { c with hash_idx := mremove c.hash_idx d } := by
  obtain ⟨hw, hD⟩ := hv
  refine ⟨wf_remove_idx c d hw, fun tid t hx => ?_⟩
  dsimp only at hx ⊢
  rw [mlookup_mremove]
  have hidx := hD tid t hx
  rw [if_neg ?_]
  · exact hidx
  · intro hh
    rw [hh, hi] at hidx
    have hti : i = tid := Option.some.inj hidx
    rw [← hti, ht] at hx
    cases hx

theorem inv_remove_both (c : Control) (d : Hash) (i : Nat) (hv : inv c)
    (hi : mlookup c.hash_idx d = some i) :
    inv { c with hash_idx := mremove c.hash_idx d, torrents := mremove c.torrents i } := by
  obtain ⟨hw, hD⟩ := hv
  refine ⟨wf_remove_both c d i hw hi, fun tid t hx => ?_⟩
  dsimp only at hx ⊢
  rw [mlookup_mremove] at hx
  by_cases hti : tid = i
  · rw [if_pos hti] at hx; cases hx
  · rw [if_neg hti] at hx
    have hidx := hD tid t hx
    rw [mlookup_mremove, if_neg ?_]
    · exact hidx
    · intro hh
      rw [hh, hi] at hidx
      exact hti (Option.some.inj hidx).symm

theorem inv_handle_rpc_ev (c : Control) (m : rpc.Message) (hv : inv c) :
    inv (handle_rpc_ev c m).1 := by
  cases m with
  | UpdateTorrent id =>
    simp only [handle_rpc_ev]
    repeat' split
    all_goals exact hv
  | Torrent info path start =>
    rw [show (handle_rpc_ev c (.Torrent info path start)).1 =
        add_torrent c info path start from rfl, add_torrent_eq_insertT]
    split
    · exact hv
    · next hnone =>
      refine inv_insertT _ _ hv ?_
      cases hcase : mlookup c.hash_idx info.hash with
      | none => rfl
      | some i => rw [hcase] at hnone; simp at hnone
  | UpdateFile id torrent_id priority =>
    simp only [handle_rpc_ev]
    repeat' split
    all_goals exact hv
  | UpdateServer id tu td => exact hv
  | RemoveTorrent id =>
    simp only [handle_rpc_ev]
    cases hd : id_to_hash id with
    | none => exact hv
    | some d =>
      dsimp only
      cases hi : mlookup c.hash_idx d with
      | none => exact hv
      | some i =>
        dsimp only
        cases ht : mlookup c.torrents i with
        | none => exact inv_remove_idx c d i hv hi ht
        | some t => exact inv_remove_both c d i hv hi
  | Pause id =>
    simp only [handle_rpc_ev]
    repeat' split
    all_goals exact hv
  | Resume id =>
    simp only [handle_rpc_ev]
    repeat' split
    all_goals exact hv
  | Validate ids => exact hv
  | RemovePeer id torrent_id =>
    simp only [handle_rpc_ev]
    repeat' split
    all_goals exact hv
  | RemoveTracker id torrent_id =>
    simp only [handle_rpc_ev]
    repeat' split
    all_goals exact hv

theorem wf_handle_event (c : Control) (e : Event) (hw : wf c) :
    wf (handle_event c e).1 := by
  cases e with
  | Tracker r =>
    cases r with
    | error u => exact hw
    | ok p =>
      obtain ⟨tid, resp⟩ := p
      show wf (handle_trk_ev c tid resp).1
      simp only [handle_trk_ev]
      cases ht : mlookup c.torrents tid with
      | none => exact hw
      | some t =>
        dsimp only
        cases resp with
        | error u => exact hw
        | ok conns => exact hw
  | Disk r =>
    cases r with
    | error u => exact hw
    | ok tid =>
      show wf (handle_disk_ev c tid).1
      simp only [handle_disk_ev]
      cases ht : mlookup c.torrents tid with
      | none => exact hw
      | some t => exact hw
  | RPC r =>
    cases r with
    | error u => exact hw
    | ok m => exact wf_handle_rpc_ev c m hw
  | Listener r =>
    cases r with
    | error u => exact hw
    | ok msg =>
      show wf (handle_lst_ev c msg).1
      simp only [handle_lst_ev]
      cases h1 : mlookup c.hash_idx msg.hash with
      | none => exact hw
      | some tid =>
        dsimp only
        cases h2 : mlookup c.torrents tid with
        | none => exact hw
        | some t =>
          dsimp only
          cases msg.accepted with
          | none => exact hw
          | some pid => exact hw
  | TimerThrottler upd =>
    cases upd with
    | none => exact hw
    | some p =>
      obtain ⟨⟨ulr, ul⟩, ⟨dlr, dl⟩⟩ := p
      exact hw
  | TimerFlush => exact hw
  | TimerJob =>
    show wf (update_rpc_tx c).1
    simp only [update_rpc_tx]
    cases htx : c.tx_rates with
    | none => exact hw
    | some p =>
      obtain ⟨ru, rd⟩ := p
      dsimp only
      split
      · exact hw
      · exact hw
  | TimerUnknown => exact hw
  | Peer pid fails =>
    show wf (handle_peer_ev c pid fails).1
    simp only [handle_peer_ev]
    cases h1 : mlookup c.peers pid with
    | none => exact hw
    | some tid =>
      dsimp only
      cases h2 : mlookup c.torrents tid with
      | none => exact hw
      | some t =>
        dsimp only
        split
        · exact hw
        · exact hw

theorem inv_handle_event (c : Control) (e : Event) (hv : inv c) :
    inv (handle_event c e).1 := by
  cases e with
  | Tracker r =>
    cases r with
    | error u => exact hv
    | ok p =>
      obtain ⟨tid, resp⟩ := p
      show inv (handle_trk_ev c tid resp).1
      simp only [handle_trk_ev]
      cases ht : mlookup c.torrents tid with
      | none => exact hv
      | some t =>
        dsimp only
        cases resp with
        | error u => exact hv
        | ok conns => exact hv
  | Disk r =>
    cases r with
    | error u => exact hv
    | ok tid =>
      show inv (handle_disk_ev c tid).1
      simp only [handle_disk_ev]
      cases ht : mlookup c.torrents tid with
      | none => exact hv
      | some t => exact hv
  | RPC r =>
    cases r with
    | error u => exact hv
    | ok m => exact inv_handle_rpc_ev c m hv
  | Listener r =>
    cases r with
    | error u => exact hv
    | ok msg =>
      show inv (handle_lst_ev c msg).1
      simp only [handle_lst_ev]
      cases h1 : mlookup c.hash_idx msg.hash with
      | none => exact hv
      | some tid =>
        dsimp only
        cases h2 : mlookup c.torrents tid with
        | none => exact hv
        | some t =>
          dsimp only
          cases msg.accepted with
          | none => exact hv
          | some pid => exact hv
  | TimerThrottler upd =>
    cases upd with
    | none => exact hv
    | some p =>
      obtain ⟨⟨ulr, ul⟩, ⟨dlr, dl⟩⟩ := p
      exact hv
  | TimerFlush => exact hv
  | TimerJob =>
    show inv (update_rpc_tx c).1
    simp only [update_rpc_tx]
    cases htx : c.tx_rates with
    | none => exact hv
    | some p =>
      obtain ⟨ru, rd⟩ := p
      dsimp only
      split
      · exact hv
      · exact hv
  | TimerUnknown => exact hv
  | Peer pid fails =>
    show inv (handle_peer_ev c pid fails).1
    simp only [handle_peer_ev]
    cases h1 : mlookup c.peers pid with
    | none => exact hv
    | some tid =>
      dsimp only
      cases h2 : mlookup c.torrents tid with
      | none => exact hv
      | some t =>
        dsimp only
        split
        · exact hv
        · exact hv

theorem wf_new (thr : Throttler) : wf (Control.new thr) := by
  refine ⟨fun h tid hx => ?_, fun h tid hx => ?_, fun tid t hx => ?_⟩ <;> cases hx

theorem inv_new (thr : Throttler) : inv (Control.new thr) := by
  refine ⟨wf_new thr, fun tid t hx => ?_⟩
  cases hx

theorem dt_entryHash_none (des : List Nat → Option Torrent) (c : Control)
    (e : Except Unit DirEntry) (hne : entryHash des e = none) :
    (deserialize_torrent des c e).2 = c := by
  cases e with
  | error u => rfl
  | ok dir =>
    simp only [deserialize_torrent, entryHash] at hne ⊢
    by_cases hn : dir.name.length ≠ 40
    · rw [if_pos hn]
    · rw [if_neg hn] at hne ⊢
      cases hc : dir.content with
      | error u => rfl
      | ok data =>
        rw [hc] at hne
        dsimp only at hne ⊢
        cases hdes : des data with
        | none => rfl
        | some t => simp [hdes] at hne

theorem dt_entryHash_some (des : List Nat → Option Torrent) (c : Control)
    (e : Except Unit DirEntry) (h : Hash) (hsome : entryHash des e = some h) :
    (deserialize_torrent des c e).2 = insertT c h := by
  cases e with
  | error u => cases hsome
  | ok dir =>
    simp only [deserialize_torrent, entryHash] at hsome ⊢
    by_cases hn : dir.name.length ≠ 40
    · rw [if_pos hn] at hsome; cases hsome
    · rw [if_neg hn] at hsome ⊢
      cases hc : dir.content with
      | error u => rw [hc] at hsome; cases hsome
      | ok data =>
        rw [hc] at hsome
        dsimp only at hsome ⊢
        cases hdes : des data with
        | none => simp [hdes] at hsome
        | some t =>
          rw [hdes] at hsome
          simp only [Option.map_some'] at hsome
          have hth : t.hash = h := Option.some.inj hsome
          rw [← hth]
          rfl

theorem wf_deserialize_torrents (des : List Nat → Option Torrent) (c : Control)
    (es : List (Except Unit DirEntry)) (hw : wf c) :
    wf (deserialize_torrents des c es) := by
  induction es generalizing c with
  | nil => exact hw
  | cons e rest ih =>
    simp only [deserialize_torrents]
    cases he : entryHash des e with
    | none => rw [dt_entryHash_none des c e he]; exact ih c hw
    | some h => rw [dt_entryHash_some des c e h he]; exact ih _ (wf_insertT c h hw)

theorem startupHashes_cons_none (des : List Nat → Option Torrent)
    (e : Except Unit DirEntry) (rest : List (Except Unit DirEntry))
    (he : entryHash des e = none) :
    startupHashes des (e :: rest) = startupHashes des rest := by
  simp [startupHashes, List.filterMap_cons, he]

theorem startupHashes_cons_some (des : List Nat → Option Torrent)
    (e : Except Unit DirEntry) (rest : List (Except Unit DirEntry)) (h : Hash)
    (he : entryHash des e = some h) :
    startupHashes des (e :: rest) = h :: startupHashes des rest := by
  simp [startupHashes, List.filterMap_cons, he]

theorem inv_deserialize_torrents (des : List Nat → Option Torrent) (c : Control)
    (es : List (Except Unit DirEntry)) (hv : inv c)
    (hfresh : ∀ h ∈ startupHashes des es, mlookup c.hash_idx h = none)
    (hnd : (startupHashes des es).Nodup) :
    inv (deserialize_torrents des c es) := by
  induction es generalizing c with
  | nil => exact hv
  | cons e rest ih =>
    simp only [deserialize_torrents]
    cases he : entryHash des e with
    | none =>
      rw [dt_entryHash_none des c e he]
      rw [startupHashes_cons_none des e rest he] at hfresh hnd
      exact ih c hv hfresh hnd
    | some h =>
      rw [dt_entryHash_some des c e h he]
      rw [startupHashes_cons_some des e rest h he] at hfresh hnd
      have hmem : h ∈ h :: startupHashes des rest := List.mem_cons_self h _
      have hfr := hfresh h hmem
      refine ih _ (inv_insertT c h hv hfr) ?_ (List.Nodup.of_cons hnd)
      intro h' hh'
      have hne : h ≠ h' := by
        intro hq
        rw [hq] at hnd
        exact (List.nodup_cons.mp hnd).1 hh'
      rw [show (insertT c h).hash_idx = minsert c.hash_idx h c.tid_cnt from rfl]
      rw [mlookup_minsert, if_neg hne]
      exact hfresh h' (List.mem_cons_of_mem h hh')

theorem deserialize_eq_dts (des : List Nat → Option Torrent) (rid : String) (c : Control)
    (sdata : Except Unit (List Nat)) (entries : List (Except Unit DirEntry)) :
    ∃ d : ServerData, deserialize des rid c sdata entries =
      deserialize_torrents des { c with data := d } entries := by
  cases sdata with
  | error u => exact ⟨ServerData.new rid, rfl⟩
  | ok bs =>
    simp only [deserialize]
    cases hsd : ServerData.deserialize bs with
    | none => exact ⟨ServerData.new rid, rfl⟩
    | some d => exact ⟨d, rfl⟩

theorem wf_deserialize (des : List Nat → Option Torrent) (rid : String) (c : Control)
    (sdata : Except Unit (List Nat)) (entries : List (Except Unit DirEntry)) (hw : wf c) :
    wf (deserialize des rid c sdata entries) := by
  obtain ⟨d, hd⟩ := deserialize_eq_dts des rid c sdata entries
  rw [hd]
  exact wf_deserialize_torrents des _ entries hw

theorem inv_deserialize_new (des : List Nat → Option Torrent) (rid : String) (thr : Throttler)
    (sdata : Except Unit (List Nat)) (entries : List (Except Unit DirEntry))
    (hnd : (startupHashes des entries).Nodup) :
    inv (deserialize des rid (Control.new thr) sdata entries) := by
  obtain ⟨d, hd⟩ := deserialize_eq_dts des rid (Control.new thr) sdata entries
  rw [hd]
  refine inv_deserialize_torrents des _ entries ?_ (fun h hh => rfl) hnd
  refine ⟨⟨fun h tid hx => ?_, fun h tid hx => ?_, fun tid t hx => ?_⟩, fun tid t hx => ?_⟩ <;>
    cases hx

theorem wf_steps (c c' : Control) (hs : Steps c c') (hw : wf c) : wf c' := by
  induction hs with
  | refl => exact hw
  | tail c2 e hsteps ih => exact wf_handle_event c2 e ih

theorem inv_steps (c c' : Control) (hs : Steps c c') (hv : inv c) : inv c' := by
  induction hs with
  | refl => exact hv
  | tail c2 e hsteps ih => exact inv_handle_event c2 e ih

theorem data_handle_rpc_ev (c : Control) (m : rpc.Message) :
    (handle_rpc_ev c m).1.data = c.data := by
  cases m
  all_goals simp only [handle_rpc_ev, add_torrent]
  all_goals repeat' split
  all_goals rfl

theorem data_handle_event (c : Control) (e : Event) :
    (handle_event c e).1.data = c.data ∨
    ∃ ulr ul dlr dl, e = Event.TimerThrottler (some ((ulr, ul), (dlr, dl))) ∧
      (handle_event c e).1.data = { c.data with
        ul := (c.data.ul + ul) % 2 ^ 64, dl := (c.data.dl + dl) % 2 ^ 64,
        session_ul := (c.data.session_ul + ul) % 2 ^ 64,
        session_dl := (c.data.session_dl + dl) % 2 ^ 64 } := by
  cases e with
  | Tracker r =>
    left
    cases r with
    | error u => rfl
    | ok p =>
      obtain ⟨tid, resp⟩ := p
      show (handle_trk_ev c tid resp).1.data = c.data
      simp only [handle_trk_ev]
      repeat' split
      all_goals rfl
  | Disk r =>
    left
    cases r with
    | error u => rfl
    | ok tid =>
      show (handle_disk_ev c tid).1.data = c.data
      simp only [handle_disk_ev]
      repeat' split
      all_goals rfl
  | RPC r =>
    left
    cases r with
    | error u => rfl
    | ok m => exact data_handle_rpc_ev c m
  | Listener r =>
    left
    cases r with
    | error u => rfl
    | ok msg =>
      show (handle_lst_ev c msg).1.data = c.data
      simp only [handle_lst_ev]
      repeat' split
      all_goals rfl
  | TimerThrottler upd =>
    cases upd with
    | none => left; rfl
    | some p =>
      obtain ⟨⟨ulr, ul⟩, ⟨dlr, dl⟩⟩ := p
      right
      exact ⟨ulr, ul, dlr, dl, rfl, rfl⟩
  | TimerFlush => left; rfl
  | TimerJob =>
    left
    show (update_rpc_tx c).1.data = c.data
    simp only [update_rpc_tx]
    repeat' split
    all_goals rfl
  | TimerUnknown => left; rfl
  | Peer pid fails =>
    left
    show (handle_peer_ev c pid fails).1.data = c.data
    simp only [handle_peer_ev]
    repeat' split
    all_goals rfl

theorem session_le_handle_event (c : Control) (e : Event) (hb : TickBound c e)
    (h1 : c.data.session_ul ≤ c.data.ul) (h2 : c.data.session_dl ≤ c.data.dl) :
    (handle_event c e).1.data.session_ul ≤ (handle_event c e).1.data.ul ∧
    (handle_event c e).1.data.session_dl ≤ (handle_event c e).1.data.dl := by
  rcases data_handle_event c e with heq | ⟨ulr, ul, dlr, dl, hev, heq⟩
  · rw [heq]; exact ⟨h1, h2⟩
  · rw [heq]
    subst hev
    obtain ⟨b1, b2, b3, b4⟩ := hb
    dsimp only
    rw [Nat.mod_eq_of_lt b1, Nat.mod_eq_of_lt b2, Nat.mod_eq_of_lt b3, Nat.mod_eq_of_lt b4]
    exact ⟨Nat.add_le_add_right h1 ul, Nat.add_le_add_right h2 dl⟩

theorem session_mono_handle_event (c : Control) (e : Event) (hb : TickBound c e) :
    c.data.session_ul ≤ (handle_event c e).1.data.session_ul ∧
    c.data.session_dl ≤ (handle_event c e).1.data.session_dl := by
  rcases data_handle_event c e with heq | ⟨ulr, ul, dlr, dl, hev, heq⟩
  · rw [heq]; exact ⟨le_refl _, le_refl _⟩
  · rw [heq]
    subst hev
    obtain ⟨b1, b2, b3, b4⟩ := hb
    dsimp only
    rw [Nat.mod_eq_of_lt b3, Nat.mod_eq_of_lt b4]
    exact ⟨Nat.le_add_right _ _, Nat.le_add_right _ _⟩

theorem dt_data (des : List Nat → Option Torrent) (c : Control) (e : Except Unit DirEntry) :
    (deserialize_torrent des c e).2.data = c.data := by
  cases e with
  | error u => rfl
  | ok dir =>
    simp only [deserialize_torrent]
    repeat' split
    all_goals rfl

theorem dts_data (des : List Nat → Option Torrent) (c : Control)
    (es : List (Except Unit DirEntry)) :
    (deserialize_torrents des c es).data = c.data := by
  induction es generalizing c with
  | nil => rfl
  | cons e rest ih =>
    simp only [deserialize_torrents]
    rw [ih, dt_data]

theorem sd_deserialize_session (bs : List Nat) (d : ServerData)
    (h : ServerData.deserialize bs = some d) : d.session_ul = 0 ∧ d.session_dl = 0 := by
  simp only [ServerData.deserialize] at h
  repeat' split at h
  all_goals try (cases h)
  all_goals exact ⟨rfl, rfl⟩

theorem deserialize_new_session (des : List Nat → Option Torrent) (rid : String)
    (thr : Throttler) (sdata : Except Unit (List Nat))
    (entries : List (Except Unit DirEntry)) :
    (deserialize des rid (Control.new thr) sdata entries).data.session_ul = 0 ∧
    (deserialize des rid (Control.new thr) sdata entries).data.session_dl = 0 := by
  simp only [deserialize]
  cases sdata with
  | error u => rw [dts_data]; exact ⟨rfl, rfl⟩
  | ok bs =>
    dsimp only
    cases hsd : ServerData.deserialize bs with
    | none => rw [dts_data]; exact ⟨rfl, rfl⟩
    | some d =>
      rw [dts_data]
      exact sd_deserialize_session bs d hsd

theorem readU64_u64le (n : Nat) (r : List Nat) :
    readU64 (u64le n ++ r) = some (n % 2 ^ 64, r) := by
  simp only [u64le, List.cons_append, List.nil_append, readU64]
  have h : n % 256 + 256 * (n / 256 % 256) + 256 ^ 2 * (n / 256 ^ 2 % 256) +
      256 ^ 3 * (n / 256 ^ 3 % 256) + 256 ^ 4 * (n / 256 ^ 4 % 256) +
      256 ^ 5 * (n / 256 ^ 5 % 256) + 256 ^ 6 * (n / 256 ^ 6 % 256) +
      256 ^ 7 * (n / 256 ^ 7 % 256) = n % 2 ^ 64 := by omega
  rw [h]

theorem session_le_stepsNW (c c' : Control) (hs : StepsNW c c')
    (h1 : c.data.session_ul ≤ c.data.ul) (h2 : c.data.session_dl ≤ c.data.dl) :
    c'.data.session_ul ≤ c'.data.ul ∧ c'.data.session_dl ≤ c'.data.dl := by
  induction hs with
  | refl => exact ⟨h1, h2⟩
  | tail c2 e hsteps hb ih => exact session_le_handle_event c2 e hb ih.1 ih.2

theorem missAt_elim (c : Control) (id : String) (hm : missAt c id = true) :
    id_to_hash id = none ∨
    (∃ d, id_to_hash id = some d ∧ mlookup c.hash_idx d = none) ∨
    (∃ d i, id_to_hash id = some d ∧ mlookup c.hash_idx d = some i ∧
      mlookup c.torrents i = none) := by
  simp only [missAt] at hm
  cases hd : id_to_hash id with
  | none => exact Or.inl rfl
  | some d =>
    rw [hd] at hm
    dsimp only at hm
    cases hi : mlookup c.hash_idx d with
    | none => exact Or.inr (Or.inl ⟨d, rfl, hi⟩)
    | some i =>
      rw [hi] at hm
      dsimp only at hm
      cases ht : mlookup c.torrents i with
      | none => exact Or.inr (Or.inr ⟨d, i, rfl, hi, ht⟩)
      | some t => rw [ht] at hm; simp at hm

theorem handle_rpc_ev_miss (c : Control) (m : rpc.Message) (hA : hash_idx_resolves c)
    (hm : cmdMisses c m = true) : handle_rpc_ev c m = (c, []) := by
  cases m with
  | UpdateTorrent id =>
    rcases missAt_elim c id hm with h0 | ⟨d, h1, h2⟩ | ⟨d, i, h1, h2, h3⟩
    · simp only [handle_rpc_ev, h0]
    · simp only [handle_rpc_ev, h1, h2]
    · simp only [handle_rpc_ev, h1, h2, h3]
  | Torrent info path start => exact Bool.noConfusion hm
  | UpdateFile id torrent_id priority =>
    rcases missAt_elim c torrent_id hm with h0 | ⟨d, h1, h2⟩ | ⟨d, i, h1, h2, h3⟩
    · simp only [handle_rpc_ev, h0]
    · simp only [handle_rpc_ev, h1, h2]
    · simp only [handle_rpc_ev, h1, h2, h3]
  | UpdateServer id tu td => exact Bool.noConfusion hm
  | RemoveTorrent id =>
    rcases missAt_elim c id hm with h0 | ⟨d, h1, h2⟩ | ⟨d, i, h1, h2, h3⟩
    · simp only [handle_rpc_ev, h0]
    · simp only [handle_rpc_ev, h1, h2]
    · obtain ⟨t, ht, _⟩ := hA d i h2
      rw [h3] at ht
      cases ht
  | Pause id =>
    rcases missAt_elim c id hm with h0 | ⟨d, h1, h2⟩ | ⟨d, i, h1, h2, h3⟩
    · simp only [handle_rpc_ev, h0]
    · simp only [handle_rpc_ev, h1, h2]
    · simp only [handle_rpc_ev, h1, h2, h3]
  | Resume id =>
    rcases missAt_elim c id hm with h0 | ⟨d, h1, h2⟩ | ⟨d, i, h1, h2, h3⟩
    · simp only [handle_rpc_ev, h0]
    · simp only [handle_rpc_ev, h1, h2]
    · simp only [handle_rpc_ev, h1, h2, h3]
  | Validate ids =>
    simp only [handle_rpc_ev, Prod.mk.injEq]
    refine ⟨trivial, ?_⟩
    rw [List.filterMap_eq_nil_iff]
    intro id hid
    have hmiss : missAt c id = true := by
      simp only [cmdMisses] at hm
      exact List.all_eq_true.mp hm id hid
    rcases missAt_elim c id hmiss with h0 | ⟨d, h1, h2⟩ | ⟨d, i, h1, h2, h3⟩
    · simp only [h0]
    · simp only [h1, h2]
    · simp only [h1, h2, h3]
  | RemovePeer id torrent_id =>
    rcases missAt_elim c torrent_id hm with h0 | ⟨d, h1, h2⟩ | ⟨d, i, h1, h2, h3⟩
    · simp only [handle_rpc_ev, h0]
    · simp only [handle_rpc_ev, h1, h2]
    · simp only [handle_rpc_ev, h1, h2, h3]
  | RemoveTracker id torrent_id =>
    rcases missAt_elim c torrent_id hm with h0 | ⟨d, h1, h2⟩ | ⟨d, i, h1, h2, h3⟩
    · simp only [handle_rpc_ev, h0]
    · simp only [handle_rpc_ev, h1, h2]
    · simp only [handle_rpc_ev, h1, h2, h3]

/-- C1 (amended): starting from a session directory whose successfully
recovered torrents carry pairwise-distinct content hashes, every state
reached by any sequence of events has no two torrents of the primary
table sharing a `ContentHash`, and every key of the secondary index
resolves to a torrent whose own hash equals that key. -/
theorem table_hash_invariant (des : List Nat → Option Torrent) (rid : String) (thr : Throttler)
    (sdata : Except Unit (List Nat)) (entries : List (Except Unit DirEntry)) (s : Control)
    (hnd : (startupHashes des entries).Nodup)
    (hs : Steps (deserialize des rid (Control.new thr) sdata entries) s) :
    torrents_hash_unique s ∧ hash_idx_resolves s := by
  have hv : inv s := inv_steps _ _ hs (inv_deserialize_new des rid thr sdata entries hnd)
  obtain ⟨⟨hA, hB, hC⟩, hD⟩ := hv
  refine ⟨?_, hA⟩
  intro tid1 tid2 t1 t2 h1 h2 hh
  have e1 := hD tid1 t1 h1
  have e2 := hD tid2 t2 h2
  rw [hh] at e1
  rw [e1] at e2
  exact Option.some.inj e2

/-- C1 witness: a startup with an empty session directory satisfies the
distinct-hash hypothesis, and the invariant holds there. -/
theorem table_hash_invariant_inst :
    (startupHashes des0 ([] : List (Except Unit DirEntry))).Nodup ∧
    (torrents_hash_unique (deserialize des0 "r" (Control.new thr0) (.error ()) []) ∧
     hash_idx_resolves (deserialize des0 "r" (Control.new thr0) (.error ()) [])) :=
  ⟨List.nodup_nil,
   table_hash_invariant des0 "r" thr0 (.error ()) [] _ List.nodup_nil (Steps.refl _)⟩

/-- C1 counterexample: two session files with distinct 40-character names
but identical resume contents deserialize to two torrents with the same
content hash, so the uniqueness half of the claimed invariant fails at a
state reached by startup deserialization alone. -/
theorem table_hash_duplicate : ¬ torrents_hash_unique c1bad := by
  intro h
  have h10 := h 0 1 ⟨hash0⟩ ⟨hash0⟩ (by decide) (by decide) rfl
  exact absurd h10 (by decide)

/-- C2: an `AddTorrent` whose hash is already indexed is a complete
no-op (state, emissions and terminal flag unchanged); when the hash is
absent, `tid_cnt` advances by one and the new torrent is stored under the
old counter value. -/
theorem add_torrent_dup (c : Control) (info : Info) (path : Option String) (start : Bool) :
    ((mlookup c.hash_idx info.hash).isSome = true →
      handle_event c (.RPC (.ok (.Torrent info path start))) = (c, [], false)) ∧
    (mlookup c.hash_idx info.hash = none →
      (handle_event c (.RPC (.ok (.Torrent info path start)))).1.tid_cnt = c.tid_cnt + 1 ∧
      mlookup (handle_event c (.RPC (.ok (.Torrent info path start)))).1.torrents c.tid_cnt
        = some ⟨info.hash⟩) := by
  constructor
  · intro hs
    have hc : add_torrent c info path start = c := by
      rw [add_torrent_eq_insertT, if_pos hs]
    show (add_torrent c info path start, ([] : List Output), false) = (c, [], false)
    rw [hc]
  · intro hn
    have he : add_torrent c info path start = insertT c info.hash := by
      rw [add_torrent_eq_insertT, if_neg (by rw [hn]; simp)]
    constructor
    · show (add_torrent c info path start).tid_cnt = c.tid_cnt + 1
      rw [he]; rfl
    · show mlookup (add_torrent c info path start).torrents c.tid_cnt = some ⟨info.hash⟩
      rw [he]
      show mlookup (minsert c.torrents c.tid_cnt ⟨info.hash⟩) c.tid_cnt = some ⟨info.hash⟩
      rw [mlookup_minsert, if_pos rfl]

/-- C2 witness: the duplicate branch at a state holding `hash0`, and the
insertion branch at the empty state. -/
theorem add_torrent_dup_inst :
    (handle_event (insertT (Control.new thr0) hash0)
        (.RPC (.ok (.Torrent ⟨hash0⟩ none true)))
      = (insertT (Control.new thr0) hash0, [], false)) ∧
    ((handle_event (Control.new thr0)
        (.RPC (.ok (.Torrent ⟨hash0⟩ none true)))).1.tid_cnt = 0 + 1 ∧
     mlookup (handle_event (Control.new thr0)
        (.RPC (.ok (.Torrent ⟨hash0⟩ none true)))).1.torrents 0 = some ⟨hash0⟩) :=
  ⟨(add_torrent_dup (insertT (Control.new thr0) hash0) ⟨hash0⟩ none true).1 (by decide),
   (add_torrent_dup (Control.new thr0) ⟨hash0⟩ none true).2 rfl⟩

/-- C3: `UpdateServer` applies a present throttle value exactly, keeps a
missing one at the current rate, and emits exactly one RPC `Throttle`
update carrying both applied values (rates below `2 ^ 32`, as every rate
settable over the u32-typed RPC surface is). -/
theorem update_server_throttle (c : Control) (id : String) (tup tdp : Option Nat)
    (hu : c.throttler.ul_rate < 2 ^ 32) (hd : c.throttler.dl_rate < 2 ^ 32) :
    (handle_event c (.RPC (.ok (.UpdateServer id tup tdp)))).1.throttler.ul_rate
        = tup.getD c.throttler.ul_rate ∧
    (handle_event c (.RPC (.ok (.UpdateServer id tup tdp)))).1.throttler.dl_rate
        = tdp.getD c.throttler.dl_rate ∧
    (handle_event c (.RPC (.ok (.UpdateServer id tup tdp)))).2.1
        = [Output.msg_rpc [SResourceUpdate.Throttle id (tup.getD c.throttler.ul_rate)
            (tdp.getD c.throttler.dl_rate)]] := by
  refine ⟨?_, ?_, ?_⟩
  · show tup.getD (c.throttler.ul_rate % 2 ^ 32) = tup.getD c.throttler.ul_rate
    rw [Nat.mod_eq_of_lt hu]
  · show tdp.getD (c.throttler.dl_rate % 2 ^ 32) = tdp.getD c.throttler.dl_rate
    rw [Nat.mod_eq_of_lt hd]
  · show [Output.msg_rpc [SResourceUpdate.Throttle id
        (tup.getD (c.throttler.ul_rate % 2 ^ 32)) (tdp.getD (c.throttler.dl_rate % 2 ^ 32))]]
      = [Output.msg_rpc [SResourceUpdate.Throttle id (tup.getD c.throttler.ul_rate)
        (tdp.getD c.throttler.dl_rate)]]
    rw [Nat.mod_eq_of_lt hu, Nat.mod_eq_of_lt hd]

/-- C3 witness: `throttle_up = None`, `throttle_down = 1048576` at the
fresh state leaves the up-rate at 100 and sets the down-rate to 1 MiB/s,
emitting the echoing update. -/
theorem update_server_throttle_inst :
    (handle_event (Control.new thr0)
        (.RPC (.ok (.UpdateServer "srv" none (some 1048576))))).1.throttler.ul_rate = 100 ∧
    (handle_event (Control.new thr0)
        (.RPC (.ok (.UpdateServer "srv" none (some 1048576))))).1.throttler.dl_rate = 1048576 ∧
    (handle_event (Control.new thr0)
        (.RPC (.ok (.UpdateServer "srv" none (some 1048576))))).2.1
      = [Output.msg_rpc [SResourceUpdate.Throttle "srv" 100 1048576]] := by
  have h := update_server_throttle (Control.new thr0) "srv" none (some 1048576)
    (by decide) (by decide)
  exact ⟨h.1, h.2.1, h.2.2⟩

/-- C4: `update_rpc_tx` emits nothing when the pending-rates slot is
empty; when the pending pair equals the last published rates it only
clears the slot; otherwise it clears the slot, records the rates as last
published, and emits exactly one `ServerTransfer` update carrying the
rates, the cumulative totals and the session counters. -/
theorem update_rpc_tx_spec (c : Control) :
    (c.tx_rates = none → update_rpc_tx c = (c, [])) ∧
    (∀ ru rd, c.tx_rates = some (ru, rd) →
      ((ru = c.last_tx_rates.1 ∧ rd = c.last_tx_rates.2) →
        update_rpc_tx c = ({ c with tx_rates := none }, [])) ∧
      (¬(ru = c.last_tx_rates.1 ∧ rd = c.last_tx_rates.2) →
        update_rpc_tx c = ({ c with tx_rates := none, last_tx_rates := (ru, rd) },
          [Output.msg_rpc [SResourceUpdate.ServerTransfer c.data.id ru rd
            c.data.ul c.data.dl c.data.session_ul c.data.session_dl]]))) := by
  constructor
  · intro hn
    simp only [update_rpc_tx, hn]
  · intro ru rd hs
    constructor
    · intro heq
      simp only [update_rpc_tx, hs]
      rw [if_pos heq]
    · intro hne
      simp only [update_rpc_tx, hs]
      rw [if_neg hne]

/-- C4 witness: the three branches at concrete states — empty slot,
pending equal to last published, pending differing. -/
theorem update_rpc_tx_spec_inst :
    (update_rpc_tx (Control.new thr0) = (Control.new thr0, [])) ∧
    (update_rpc_tx { Control.new thr0 with tx_rates := some (0, 0) }
      = ({ Control.new thr0 with tx_rates := none }, [])) ∧
    (update_rpc_tx { Control.new thr0 with tx_rates := some (5, 0) }
      = ({ Control.new thr0 with tx_rates := none, last_tx_rates := (5, 0) },
         [Output.msg_rpc [SResourceUpdate.ServerTransfer "" 5 0 0 0 0 0]])) :=
  ⟨(update_rpc_tx_spec (Control.new thr0)).1 rfl,
   ((update_rpc_tx_spec { Control.new thr0 with tx_rates := some (0, 0) }).2 0 0 rfl).1
     ⟨rfl, rfl⟩,
   ((update_rpc_tx_spec { Control.new thr0 with tx_rates := some (5, 0) }).2 5 0 rfl).2
     (by decide)⟩

/-- C5: serializing `ServerData` to the `syn_data` encoding and decoding
the result preserves `id`, `ul` and `dl` and zeroes both session
counters (the u64 fields and the string length are in u64 range, as the
source's types force). -/
theorem serverdata_roundtrip (d : ServerData) (hl : d.id.length < 2 ^ 64)
    (hu : d.ul < 2 ^ 64) (hd : d.dl < 2 ^ 64) :
    ServerData.deserialize (ServerData.serialize d) = some ⟨d.id, d.ul, d.dl, 0, 0⟩ := by
  have hmap : (d.id.data.map Char.toNat).length = d.id.length := by
    rw [List.length_map]
    rfl
  have hassoc : ServerData.serialize d
      = u64le d.id.length ++ (d.id.data.map Char.toNat ++ (u64le d.ul ++ u64le d.dl)) := by
    simp [ServerData.serialize, List.append_assoc]
  rw [hassoc]
  simp only [ServerData.deserialize, readU64_u64le, Nat.mod_eq_of_lt hl]
  try dsimp only
  have hlen : d.id.length ≤ (d.id.data.map Char.toNat ++ (u64le d.ul ++ u64le d.dl)).length := by
    rw [List.length_append, hmap]
    exact Nat.le_add_right _ _
  rw [if_pos hlen]
  have hdrop : (d.id.data.map Char.toNat ++ (u64le d.ul ++ u64le d.dl)).drop d.id.length
      = u64le d.ul ++ u64le d.dl := by
    rw [← hmap]
    exact List.drop_left _ _
  rw [hdrop, readU64_u64le, Nat.mod_eq_of_lt hu]
  try dsimp only
  rw [show u64le d.dl = u64le d.dl ++ ([] : List Nat) from (List.append_nil _).symm]
  rw [readU64_u64le, Nat.mod_eq_of_lt hd]
  try dsimp only
  have htake : (d.id.data.map Char.toNat ++ (u64le d.ul ++ u64le d.dl)).take d.id.length
      = d.id.data.map Char.toNat := by
    rw [← hmap]
    exact List.take_left _ _
  rw [List.append_nil, htake, List.map_map]
  have hchars : d.id.data.map (Char.ofNat ∘ Char.toNat) = d.id.data := by
    have hfun : (Char.ofNat ∘ Char.toNat) = fun ch => ch := by
      funext ch
      exact Char.ofNat_toNat ch
    rw [hfun, List.map_id']
  rw [hchars]

/-- C5 witness: a concrete value round-trips with its session counters
reset. -/
theorem serverdata_roundtrip_inst :
    ServerData.deserialize (ServerData.serialize ⟨"ab", 5, 6, 7, 8⟩)
      = some ⟨"ab", 5, 6, 0, 0⟩ :=
  serverdata_roundtrip ⟨"ab", 5, 6, 7, 8⟩ (by decide) (by decide) (by decide)

/-- C6 counterexample: `syn_data` may legally record `ul` at the top of
the u64 range; the next throttler tick's wrapping `+=` then leaves
`ul < session_ul` in a state reached by startup deserialization plus one
event, refuting the claimed inequality. -/
theorem session_counter_wrap :
    Steps c6start c6bad ∧ c6bad.data.ul < c6bad.data.session_ul := by
  constructor
  · exact Steps.tail c6start c6start (.TimerThrottler (some ((0, 1), (0, 0))))
      (Steps.refl c6start)
  · decide

/-- C6 (amended): along event sequences in which no u64 counter addition
overflows, the session counters never decrease across an event and the
lifetime counters dominate them in every reachable state. -/
theorem session_counters_nowrap (des : List Nat → Option Torrent) (rid : String)
    (thr : Throttler) (sdata : Except Unit (List Nat)) (entries : List (Except Unit DirEntry))
    (s : Control) (hs : StepsNW (deserialize des rid (Control.new thr) sdata entries) s) :
    (s.data.session_ul ≤ s.data.ul ∧ s.data.session_dl ≤ s.data.dl) ∧
    ∀ e, TickBound s e →
      s.data.session_ul ≤ (handle_event s e).1.data.session_ul ∧
      s.data.session_dl ≤ (handle_event s e).1.data.session_dl := by
  constructor
  · refine session_le_stepsNW _ _ hs ?_ ?_
    · rw [(deserialize_new_session des rid thr sdata entries).1]
      exact Nat.zero_le _
    · rw [(deserialize_new_session des rid thr sdata entries).2]
      exact Nat.zero_le _
  · intro e hb
    exact session_mono_handle_event s e hb

/-- C6 witness: the dominance inequalities at a concrete startup state. -/
theorem session_counters_nowrap_inst :
    (deserialize des0 "r" (Control.new thr0) (.error ()) []).data.session_ul
        ≤ (deserialize des0 "r" (Control.new thr0) (.error ()) []).data.ul ∧
    (deserialize des0 "r" (Control.new thr0) (.error ()) []).data.session_dl
        ≤ (deserialize des0 "r" (Control.new thr0) (.error ()) []).data.dl :=
  (session_counters_nowrap des0 "r" thr0 (.error ()) [] _ (StepsNW.refl _)).1

/-- C7: during recovery an entry whose name is not 40 characters long is
skipped with the state untouched; any per-entry failure (bad entry,
unreadable file, rejected resume blob) leaves the state untouched; and
the directory fold always continues with the remaining entries. -/
theorem recovery_skip (des : List Nat → Option Torrent) (c : Control)
    (e : Except Unit DirEntry) (rest : List (Except Unit DirEntry)) :
    (∀ dir : DirEntry, e = .ok dir → dir.name.length ≠ 40 →
      deserialize_torrent des c e = (.ok (), c)) ∧
    ((deserialize_torrent des c e).1 = .error () → (deserialize_torrent des c e).2 = c) ∧
    (deserialize_torrents des c (e :: rest)
      = deserialize_torrents des (deserialize_torrent des c e).2 rest) := by
  refine ⟨?_, ?_, rfl⟩
  · intro dir hdir hn
    subst hdir
    simp only [deserialize_torrent]
    rw [if_pos hn]
  · intro herr
    cases e with
    | error u => rfl
    | ok dir =>
      simp only [deserialize_torrent]
      by_cases hn : dir.name.length ≠ 40
      · rw [if_pos hn]
      · rw [if_neg hn]
        cases hc : dir.content with
        | error u => rfl
        | ok data =>
          dsimp only
          cases hdes : des data with
          | none => rfl
          | some t =>
            simp only [deserialize_torrent, hc, hdes, if_neg hn] at herr
            cases herr

/-- C7 witness: a 5-character name is skipped unchanged; an unreadable
40-character file is skipped unchanged; the fold continues past it. -/
theorem recovery_skip_inst :
    (deserialize_torrent des0 (Control.new thr0) (.ok ⟨"short", .ok []⟩)
      = (.ok (), Control.new thr0)) ∧
    ((deserialize_torrent des0 (Control.new thr0) (.ok ⟨name40a, .error ()⟩)).2
      = Control.new thr0) ∧
    (deserialize_torrents des0 (Control.new thr0) (.ok ⟨name40a, .error ()⟩ :: [])
      = deserialize_torrents des0
          (deserialize_torrent des0 (Control.new thr0) (.ok ⟨name40a, .error ()⟩)).2 []) :=
  ⟨(recovery_skip des0 (Control.new thr0) (.ok ⟨"short", .ok []⟩) []).1
      ⟨"short", .ok []⟩ rfl (by decide),
   (recovery_skip des0 (Control.new thr0) (.ok ⟨name40a, .error ()⟩) []).2.1 (by decide),
   (recovery_skip des0 (Control.new thr0) (.ok ⟨name40a, .error ()⟩) []).2.2⟩

/-- C8: in any state whose secondary index resolves (as every state of a
run does), a hash-keyed RPC command whose three-stage resolution misses —
undecodable id, hash absent from the index, or resolved id absent from
the table — leaves the whole core state unchanged and emits nothing. -/
theorem rpc_miss_noop (c : Control) (m : rpc.Message) (hA : hash_idx_resolves c)
    (hm : cmdMisses c m = true) :
    handle_event c (.RPC (.ok m)) = (c, [], false) := by
  have hr := handle_rpc_ev_miss c m hA hm
  show ((handle_rpc_ev c m).1, (handle_rpc_ev c m).2, false) = (c, [], false)
  rw [hr]

/-- C8 witness: a non-hex id and an unindexed hash id are both silent
no-ops at the fresh state. -/
theorem rpc_miss_noop_inst :
    handle_event (Control.new thr0) (.RPC (.ok (.RemoveTorrent "zz")))
      = (Control.new thr0, [], false) ∧
    handle_event (Control.new thr0) (.RPC (.ok (.Pause zeros40)))
      = (Control.new thr0, [], false) :=
  ⟨rpc_miss_noop (Control.new thr0) (.RemoveTorrent "zz")
      (fun h tid hx => by cases hx) (by decide),
   rpc_miss_noop (Control.new thr0) (.Pause zeros40)
      (fun h tid hx => by cases hx) (by decide)⟩

/-- C9: a peer event whose id is indexed and whose owning torrent exists
is delivered to the torrent; on reported failure the `PeerIndex` entry is
removed and the torrent's peer set is republished over RPC, otherwise
the entry and the whole state are retained. -/
theorem peer_ev_failure (c : Control) (pid tid : Nat) (t : Torrent) (fails : Bool)
    (hp : mlookup c.peers pid = some tid) (ht : mlookup c.torrents tid = some t) :
    handle_event c (.Peer pid fails) =
      (if fails then { c with peers := mremove c.peers pid } else c,
       Output.peer_ev tid pid :: (if fails then [Output.update_rpc_peers tid] else []),
       false) := by
  have hr : handle_peer_ev c pid fails =
      (if fails then { c with peers := mremove c.peers pid } else c,
       Output.peer_ev tid pid :: (if fails then [Output.update_rpc_peers tid] else [])) := by
    simp only [handle_peer_ev, hp, ht]
    cases fails <;> rfl
  show ((handle_peer_ev c pid fails).1, (handle_peer_ev c pid fails).2, false) = _
  rw [hr]

/-- C9 witness: at a state owning torrent 0 with peer 3, a failing peer
event removes the index entry and republishes; a non-failing one retains
it. -/
theorem peer_ev_failure_inst :
    handle_event { insertT (Control.new thr0) hash0 with peers := [(3, 0)] } (.Peer 3 true)
      = ({ insertT (Control.new thr0) hash0 with peers := ([] : List (Nat × Nat)) },
         [Output.peer_ev 0 3, Output.update_rpc_peers 0], false) ∧
    handle_event { insertT (Control.new thr0) hash0 with peers := [(3, 0)] } (.Peer 3 false)
      = ({ insertT (Control.new thr0) hash0 with peers := [(3, 0)] },
         [Output.peer_ev 0 3], false) := by
  have h1 := peer_ev_failure { insertT (Control.new thr0) hash0 with peers := [(3, 0)] }
    3 0 ⟨hash0⟩ true (by decide) (by decide)
  have h2 := peer_ev_failure { insertT (Control.new thr0) hash0 with peers := [(3, 0)] }
    3 0 ⟨hash0⟩ false (by decide) (by decide)
  refine ⟨?_, ?_⟩
  · rw [h1]; decide
  · rw [h2]; decide

/-- C10: a `RemoveTorrent` that actually removes a torrent (its id
decodes, the hash is indexed, the torrent exists) leaves the `PeerIndex`
entirely unchanged. -/
theorem remove_torrent_peers_frame (c : Control) (id : String) (d : Hash) (i : Nat)
    (t : Torrent) (h1 : id_to_hash id = some d) (h2 : mlookup c.hash_idx d = some i)
    (h3 : mlookup c.torrents i = some t) :
    (handle_event c (.RPC (.ok (.RemoveTorrent id)))).1.peers = c.peers := by
  show (handle_rpc_ev c (.RemoveTorrent id)).1.peers = c.peers
  simp only [handle_rpc_ev, h1, h2, h3]

/-- C10 witness: removing the torrent with the all-zero hash leaves a
stale peer entry in place. -/
theorem remove_torrent_peers_frame_inst :
    (handle_event { insertT (Control.new thr0) (List.replicate 20 0) with peers := [(3, 0)] }
        (.RPC (.ok (.RemoveTorrent zeros40)))).1.peers = [(3, 0)] :=
  remove_torrent_peers_frame
    { insertT (Control.new thr0) (List.replicate 20 0) with peers := [(3, 0)] }
    zeros40 (List.replicate 20 0) 0 ⟨List.replicate 20 0⟩ (by decide) (by decide) (by decide)

theorem resolves_reachable (des : List Nat → Option Torrent) (rid : String) (thr : Throttler)
    (sdata : Except Unit (List Nat)) (entries : List (Except Unit DirEntry)) (s : Control)
    (hs : Steps (deserialize des rid (Control.new thr) sdata entries) s) :
    hash_idx_resolves s :=
  (wf_steps _ _ hs (wf_deserialize des rid _ sdata entries (wf_new thr))).1
